import Mathlib

/-!
Verification of the PMC-Baseline-Mesh-to-DB pipeline (src/main.py).

The development shallowly embeds the program:
* an XML tree model (`Element`) with the `ElementTree` lookups the code
  uses (`find`/`findall` with direct-child and descendant (`.//`) paths);
* the extractor `parse_pubmed_xml` (src/main.py lines 55-124), returning
  `Except Unit _` because a missing `PMID` node raises `AttributeError`
  (`article.find(".//PMID").text` on `None`);
* the store writer `insert_articles` (lines 127-169) over a relational
  store model `DB`; `INSERT OR IGNORE` on `articles` is modelled as a
  conditional append that never fails (SQLite raises no `IntegrityError`
  for the ignored conflict, and a NULL `pmcid` never conflicts with a
  TEXT primary key), and the `mesh_terms` insert as an unconditional
  append (the table has no uniqueness constraint and foreign keys are
  not enabled), so the `except sqlite3.IntegrityError` branch of the
  source is unreachable and the model has no error path;
* the per-file error isolation of `process_file` (lines 172-180);
* the coordination structure of `process_directory` (lines 183-194):
  a bounded thread pool plus the single `DB_LOCK`, as a step relation.
-/

namespace PMC

/-- An XML element: tag, attributes, text content, children.
`text` is `none` for an element with no text content, as in
`xml.etree.ElementTree` where `elem.text` is `None` for `<e/>`. -/
inductive Element where
  | mk : String → List (String × String) → Option String → List Element → Element

def Element.tag : Element → String
  | .mk t _ _ _ => t

def Element.attrs : Element → List (String × String)
  | .mk _ a _ _ => a

def Element.text : Element → Option String
  | .mk _ _ s _ => s

def Element.children : Element → List Element
  | .mk _ _ _ c => c

/-- `elem.get(name)`: attribute lookup, `None` when absent. -/
def Element.getAttr (e : Element) (k : String) : Option String :=
  e.attrs.lookup k

mutual

/-- All proper descendants of an element, in document (preorder) order. -/
def Element.descendants : Element → List Element
  | .mk _ _ _ cs => Element.descList cs

def Element.descList : List Element → List Element
  | [] => []
  | c :: cs => c :: Element.descendants c ++ Element.descList cs

end

/-- `elem.findall(".//T")`: descendants with tag `T`, in document order. -/
def findallDesc (e : Element) (t : String) : List Element :=
  e.descendants.filter (fun d => d.tag = t)

/-- `elem.find(".//T")`: first descendant with tag `T`, or `None`. -/
def findDesc (e : Element) (t : String) : Option Element :=
  (findallDesc e t).head?

/-- `elem.findall("T")`: direct children with tag `T`. -/
def childrenTag (e : Element) (t : String) : List Element :=
  e.children.filter (fun c => c.tag = t)

/-- `elem.find("T")`: first direct child with tag `T`, or `None`. -/
def findChild (e : Element) (t : String) : Option Element :=
  (childrenTag e t).head?

/-- `article.find(".//Journal/Title")`: first `Title` child of a
`Journal` descendant, in document order. -/
def findJournalTitle (article : Element) : Option Element :=
  ((findallDesc article "Journal").flatMap (fun j => childrenTag j "Title")).head?

/-- One row destined for the `mesh_terms` table: the dict built at
src/main.py lines 101-111.  `major` and `qual_major` hold `int(bool)`. -/
structure MeshTerm where
  pmcid : Option String
  descriptor : Option String
  ui : Option String
  major : Nat
  qualifier : Option String
  qual_ui : Option String
  qual_major : Nat
deriving DecidableEq

/-- One extracted article record: the dict built at lines 113-122. -/
structure ArticleRec where
  pmcid : Option String
  pmid : Option String
  doi : Option String
  title : Option String
  journal : Option String
  mesh_terms : List MeshTerm
deriving DecidableEq

/-- The `ArticleId` scan of lines 72-76: iterate over all
`.//ArticleId` nodes, assigning `doi` on `IdType == "doi"` and `pmcid`
on `IdType == "pmc"`.  Each match overwrites the bucket, so the last
matching node wins. -/
def scanIds : List Element → Option String → Option String → Option String × Option String
  | [], doi, pmcid => (doi, pmcid)
  | aid :: rest, doi, pmcid =>
    if aid.getAttr "IdType" = some "doi" then
      scanIds rest aid.text pmcid
    else if aid.getAttr "IdType" = some "pmc" then
      scanIds rest doi aid.text
    else
      scanIds rest doi pmcid

/-- The per-`MeshHeading` extraction of lines 90-111: if the direct
child `DescriptorName` is absent, no rows; otherwise one row per direct
child `QualifierName`, repeating the descriptor fields. -/
def meshRows (pmcid : Option String) (mesh : Element) : List MeshTerm :=
  match findChild mesh "DescriptorName" with
  | none => []
  | some d =>
    (childrenTag mesh "QualifierName").map (fun q =>
      { pmcid := pmcid
        descriptor := d.text
        ui := d.getAttr "UI"
        major := if d.getAttr "MajorTopicYN" = some "Y" then 1 else 0
        qualifier := q.text
        qual_ui := q.getAttr "UI"
        qual_major := if q.getAttr "MajorTopicYN" = some "Y" then 1 else 0 })

/-- The per-article body of the loop at lines 63-122.
`article.find(".//PMID").text` raises `AttributeError` when no `PMID`
descendant exists: modelled as `.error ()`.  An article whose scan
leaves `pmcid = None` is filtered out: `.ok none`. -/
def parseArticle (article : Element) : Except Unit (Option ArticleRec) :=
  match findDesc article "PMID" with
  | none => .error ()
  | some pmidEl =>
    let ids := scanIds (findallDesc article "ArticleId") none none
    let doi := ids.1
    let pmcid := ids.2
    if pmcid.isSome then
      let title := (findDesc article "ArticleTitle").bind Element.text
      let journal := (findJournalTitle article).bind Element.text
      let mesh := (findallDesc article "MeshHeading").flatMap (meshRows pmcid)
      .ok (some { pmcid := pmcid, pmid := pmidEl.text, doi := doi,
                  title := title, journal := journal, mesh_terms := mesh })
    else
      .ok none

/-- The article loop of lines 63-122: records accumulate in order; an
exception in one article aborts the whole call, losing every record. -/
def parseLoop : List Element → Except Unit (List ArticleRec)
  | [] => .ok []
  | a :: rest =>
    match parseArticle a with
    | .error e => .error e
    | .ok r =>
      match parseLoop rest with
      | .error e => .error e
      | .ok rs =>
        match r with
        | some ar => .ok (ar :: rs)
        | none => .ok rs

/-- `parse_pubmed_xml` (lines 55-124), applied to the parsed root:
iterates over `root.findall(".//PubmedArticle")`. -/
def parse_pubmed_xml (root : Element) : Except Unit (List ArticleRec) :=
  parseLoop (findallDesc root "PubmedArticle")

/-- One row of the `articles` table (init_db, lines 27-34). -/
structure ArticleRow where
  pmcid : Option String
  pmid : Option String
  doi : Option String
  title : Option String
  journal : Option String
deriving DecidableEq

/-- The store: the `articles` table and the `mesh_terms` table, each as
a list of rows in insertion order (the `AUTOINCREMENT` id of
`mesh_terms` is the list position). -/
structure DB where
  articles : List ArticleRow
  mesh_terms : List MeshTerm
deriving DecidableEq

def articleRow (a : ArticleRec) : ArticleRow :=
  ⟨a.pmcid, a.pmid, a.doi, a.title, a.journal⟩

/-- Does the `articles` table already hold a row with this key?  Used
to decide the `INSERT OR IGNORE` conflict. -/
def hasKey (db : DB) (k : Option String) : Bool :=
  db.articles.any (fun r => r.pmcid = k)

/-- The per-article body of the writer loop (lines 133-166).
`INSERT OR IGNORE INTO articles`: on a primary-key conflict the row is
silently skipped — SQLite raises nothing, so the
`except sqlite3.IntegrityError` / duplicate-notice branch never fires
for it (a NULL `pmcid` never conflicts: SQLite stores NULLs in a TEXT
primary key as distinct).  The `mesh_terms` inserts then run
unconditionally: that table has no uniqueness constraint and foreign
keys are not enabled, so they cannot fail either. -/
def insertOne (db : DB) (a : ArticleRec) : DB :=
  let db1 :=
    if a.pmcid.isSome && hasKey db a.pmcid then db
    else { db with articles := db.articles ++ [articleRow a] }
  { db1 with mesh_terms := db1.mesh_terms ++ a.mesh_terms }

/-- `insert_articles` (lines 127-169): one batch written under the
lock, article by article. -/
def insert_articles (db : DB) (batch : List ArticleRec) : DB :=
  batch.foldl insertOne db

/-- A sequence of writer invocations, one batch each. -/
def writeBatches (db : DB) (bs : List (List ArticleRec)) : DB :=
  bs.foldl insert_articles db

/-- `process_file` (lines 172-180): parse then insert; any exception of
the file's pipeline is caught and logged, leaving the store as it was. -/
def process_file (db : DB) (root : Element) : DB :=
  match parse_pubmed_xml root with
  | .error _ => db
  | .ok recs => insert_articles db recs

/-- Sequential effect of processing a list of archives. -/
def process_files (db : DB) (roots : List Element) : DB :=
  roots.foldl process_file db

/-! ### Coordination model

`process_directory` (lines 183-194) runs `process_file` for each input
file on a `ThreadPoolExecutor(max_threads)`, and `insert_articles`
holds the single global `DB_LOCK` (lines 17, 129) for its whole body.
The interleaving is modelled as a step relation on the states of the
per-file tasks plus the lock: the pool admits a pending file only while
fewer than `N` files are active, a task enters the write phase only by
acquiring the free lock, and releases it when the write ends.  A task
whose parse raises moves to `failed` (the `except` of `process_file`). -/

inductive FState where
  | pending
  | extracting
  | writing
  | done
  | failed
deriving DecidableEq

/-- Is a file in a pool slot (between dispatch and completion)? -/
def FState.isActive : FState → Bool
  | .extracting => true
  | .writing => true
  | _ => false

/-- Global coordinator state: one `FState` per input file, and the
holder of `DB_LOCK` (`none` = free). -/
structure Coord where
  tasks : List FState
  lockHolder : Option Nat

/-- Number of files currently in the `extracting` or `writing` state. -/
def activeCount (ts : List FState) : Nat :=
  ts.countP (fun s => s.isActive)

/-- Initial state: every file pending, lock free. -/
def initCoord (n : Nat) : Coord :=
  ⟨List.replicate n .pending, none⟩

/-- One scheduler step of `process_directory` with concurrency bound
`N`. -/
inductive CoordStep (N : Nat) : Coord → Coord → Prop where
  | dispatch (c : Coord) (i : Nat) (hi : i < c.tasks.length)
      (hp : c.tasks.get ⟨i, hi⟩ = .pending)
      (hb : activeCount c.tasks < N) :
      CoordStep N c ⟨c.tasks.set i .extracting, c.lockHolder⟩
  | acquireWrite (c : Coord) (i : Nat) (hi : i < c.tasks.length)
      (he : c.tasks.get ⟨i, hi⟩ = .extracting)
      (hl : c.lockHolder = none) :
      CoordStep N c ⟨c.tasks.set i .writing, some i⟩
  | releaseWrite (c : Coord) (i : Nat) (hi : i < c.tasks.length)
      (hw : c.tasks.get ⟨i, hi⟩ = .writing)
      (hl : c.lockHolder = some i) :
      CoordStep N c ⟨c.tasks.set i .done, none⟩
  | failExtract (c : Coord) (i : Nat) (hi : i < c.tasks.length)
      (he : c.tasks.get ⟨i, hi⟩ = .extracting) :
      CoordStep N c ⟨c.tasks.set i .failed, c.lockHolder⟩

/-- States reachable from the all-pending start. -/
def reachable (N n : Nat) (c : Coord) : Prop :=
  Relation.ReflTransGen (CoordStep N) (initCoord n) c

/-! ### Concrete sample documents, used to instantiate the theorems -/

def ePMID (v : String) : Element := .mk "PMID" [] (some v) []

def eAid (ty : String) (v : Option String) : Element :=
  .mk "ArticleId" [("IdType", ty)] v []

def eTitle (v : String) : Element := .mk "ArticleTitle" [] (some v) []

def eJournal (t : String) : Element :=
  .mk "Journal" [] none [.mk "Title" [] (some t) []]

def eQual (t ui maj : String) : Element :=
  .mk "QualifierName" [("UI", ui), ("MajorTopicYN", maj)] (some t) []

def eDescr (t ui maj : String) : Element :=
  .mk "DescriptorName" [("UI", ui), ("MajorTopicYN", maj)] (some t) []

def eMesh (cs : List Element) : Element := .mk "MeshHeading" [] none cs

def eArticle (cs : List Element) : Element := .mk "PubmedArticle" [] none cs

def eRoot (arts : List Element) : Element := .mk "PubmedArticleSet" [] none arts

/-- A fully populated article: key PMC100, one MeshHeading whose
descriptor carries two qualifiers. -/
def artGood : Element :=
  eArticle [ePMID "100", eAid "doi" (some "d1"), eAid "pmc" (some "PMC100"),
    eTitle "A Study", eJournal "J",
    eMesh [eDescr "D" "U1" "Y", eQual "Q1" "QU1" "N", eQual "Q2" "QU2" "Y"]]

/-- The record `parse_pubmed_xml` extracts from `artGood`. -/
def recGood : ArticleRec :=
  { pmcid := some "PMC100", pmid := some "100", doi := some "d1",
    title := some "A Study", journal := some "J",
    mesh_terms :=
      [⟨some "PMC100", some "D", some "U1", 1, some "Q1", some "QU1", 0⟩,
       ⟨some "PMC100", some "D", some "U1", 1, some "Q2", some "QU2", 1⟩] }

/-- An article with no `PMID` node anywhere: `.//PMID` is `None` and
`.text` raises. -/
def artNoPmid : Element := eArticle [eAid "pmc" (some "PMC102")]

/-- Two batches that both carry key PMC200, with different heading
data. -/
def mTermA : MeshTerm := ⟨some "PMC200", some "D", some "U", 1, some "QA", some "UA", 0⟩

def mTermB : MeshTerm := ⟨some "PMC200", some "D", some "U", 1, some "QB", some "UB", 1⟩

def recDupA : ArticleRec :=
  ⟨some "PMC200", some "1", none, none, none, [mTermA]⟩

def recDupB : ArticleRec :=
  ⟨some "PMC200", some "2", none, none, none, [mTermB]⟩

def dbEmpty : DB := ⟨[], []⟩

end PMC

namespace PMC

/-- **C1.** The claim predicts: on a duplicate key the article is
skipped with a logged notice and its heading rows are NOT written, so
two batches sharing key PMC200 leave heading rows only from the first
batch.  The code's `INSERT OR IGNORE` never raises, so the
`except IntegrityError` / notice branch is dead, and the duplicate
article's `mesh_terms` rows ARE written: after the two batches the
store holds exactly one PMC200 article row but the heading rows of
BOTH batches. -/
theorem c1_duplicate_headings_still_written :
    (writeBatches dbEmpty [[recDupA], [recDupB]]).articles = [articleRow recDupA] ∧
    (writeBatches dbEmpty [[recDupA], [recDupB]]).mesh_terms = [mTermA, mTermB] := by
  constructor <;> rfl

/-- An archive whose first article lacks a `PMID` node and whose second
is fully well-formed. -/
def rootBadThenGood : Element := eRoot [artNoPmid, artGood]

/-- **C2, counterexample.** The claim predicts that the malformed first
article does not abort extraction of the remaining articles: the good
article's record should still be produced.  In the code the
`AttributeError` from `article.find(".//PMID").text` propagates out of
the loop: the whole archive errors and yields no records at all, even
though the good article parses fine on its own. -/
theorem c2_malformed_article_aborts_archive :
    parse_pubmed_xml rootBadThenGood = .error () ∧
    parse_pubmed_xml (eRoot [artGood]) = .ok [recGood] := by
  constructor <;> rfl

/-- **C2, amended.** A malformed article aborts extraction of its whole
archive; the isolation the code provides is per FILE: `process_file`
catches the exception, the store is left unchanged by that file, and
the remaining files are processed exactly as if the failing file were
absent. -/
theorem c2_failure_isolated_per_file (db : DB) (r : Element) (rest : List Element)
    (h : parse_pubmed_xml r = .error ()) :
    process_file db r = db ∧
    process_files db (r :: rest) = process_files db rest := by
  have h1 : process_file db r = db := by unfold process_file; rw [h]
  exact ⟨h1, by simp only [process_files, List.foldl_cons, h1]⟩

/-- Witness for C2: the archive with the PMID-less article leaves the
empty store unchanged, and a run over it plus a good archive equals the
run over the good archive alone. -/
theorem c2_failure_isolated_per_file_witness :
    process_file dbEmpty rootBadThenGood = dbEmpty ∧
    process_files dbEmpty (rootBadThenGood :: [eRoot [artGood]]) =
      process_files dbEmpty [eRoot [artGood]] :=
  c2_failure_isolated_per_file dbEmpty rootBadThenGood [eRoot [artGood]] rfl

/-- Every row `meshRows` emits carries the pmcid it was given. -/
theorem meshRows_pmcid (p : Option String) (mesh : Element) :
    ∀ m ∈ meshRows p mesh, m.pmcid = p := by
  intro m hm
  unfold meshRows at hm
  split at hm
  · simp at hm
  · simp only [List.mem_map] at hm
    obtain ⟨q, _, rfl⟩ := hm
    rfl

/-- Inversion of `parseArticle`: a produced record's fields come from
the id scan, the optional title/journal lookups, and the mesh rows. -/
theorem parseArticle_ok_some (a : Element) (ar : ArticleRec)
    (h : parseArticle a = .ok (some ar)) :
    (scanIds (findallDesc a "ArticleId") none none).2.isSome ∧
    ar.pmcid = (scanIds (findallDesc a "ArticleId") none none).2 ∧
    ar.title = (findDesc a "ArticleTitle").bind Element.text ∧
    ar.journal = (findJournalTitle a).bind Element.text ∧
    ar.mesh_terms = (findallDesc a "MeshHeading").flatMap
        (meshRows (scanIds (findallDesc a "ArticleId") none none).2) := by
  cases hfd : findDesc a "PMID" with
  | none => rw [parseArticle, hfd] at h; cases h
  | some p =>
    rw [parseArticle, hfd] at h
    simp only at h
    split at h
    · rename_i hsome
      cases h
      exact ⟨hsome, rfl, rfl, rfl, rfl⟩
    · cases h

/-- An article whose id scan found no archive key never yields a
record. -/
theorem parseArticle_no_key (a : Element) (r : Option ArticleRec)
    (h : parseArticle a = .ok r)
    (hk : (scanIds (findallDesc a "ArticleId") none none).2 = none) :
    r = none := by
  cases hfd : findDesc a "PMID" with
  | none => rw [parseArticle, hfd] at h; cases h
  | some p =>
    rw [parseArticle, hfd] at h
    simp only at h
    split at h
    · rename_i hsome
      rw [hk] at hsome
      simp at hsome
    · cases h
      rfl

/-- Every record of a successful parse comes from one of the scanned
article nodes. -/
theorem parseLoop_mem (arts : List Element) (recs : List ArticleRec)
    (h : parseLoop arts = .ok recs) :
    ∀ ar ∈ recs, ∃ a ∈ arts, parseArticle a = .ok (some ar) := by
  induction arts generalizing recs with
  | nil =>
    intro ar har
    rw [parseLoop] at h
    cases h
    cases har
  | cons a rest ih =>
    intro ar har
    rw [parseLoop] at h
    cases hpa : parseArticle a with
    | error e => rw [hpa] at h; cases h
    | ok r =>
      rw [hpa] at h
      cases hpl : parseLoop rest with
      | error e => rw [hpl] at h; cases h
      | ok rs =>
        rw [hpl] at h
        cases r with
        | some ar0 =>
          cases h
          cases har with
          | head => exact ⟨a, List.mem_cons_self a rest, hpa⟩
          | tail _ har =>
            obtain ⟨a', ha', hpa'⟩ := ih rs hpl ar har
            exact ⟨a', List.mem_cons_of_mem a ha', hpa'⟩
        | none =>
          cases h
          obtain ⟨a', ha', hpa'⟩ := ih _ hpl ar har
          exact ⟨a', List.mem_cons_of_mem a ha', hpa'⟩

/-- **C3.** Every record of a successful parse carries a non-null
pmcid, and an article whose alternate-id scan yields no archive key is
excluded entirely (it contributes no record), so no record with a
missing key is ever handed to the store. -/
theorem c3_records_have_nonnull_key (root : Element) (recs : List ArticleRec)
    (h : parse_pubmed_xml root = .ok recs) :
    (∀ ar ∈ recs, ar.pmcid.isSome) ∧
    (∀ a r, parseArticle a = .ok r →
      (scanIds (findallDesc a "ArticleId") none none).2 = none → r = none) := by
  refine ⟨?_, fun a r hr hk => parseArticle_no_key a r hr hk⟩
  intro ar har
  obtain ⟨a, _, hpa⟩ := parseLoop_mem _ _ h ar har
  obtain ⟨hs, hp, _⟩ := parseArticle_ok_some a ar hpa
  rw [hp]
  exact hs

/-- Witness for C3 at the sample archive. -/
theorem c3_records_have_nonnull_key_witness :
    (∀ ar ∈ [recGood], ar.pmcid.isSome) ∧
    (∀ a r, parseArticle a = .ok r →
      (scanIds (findallDesc a "ArticleId") none none).2 = none → r = none) :=
  c3_records_have_nonnull_key (eRoot [artGood]) [recGood] rfl

/-- **C9.** Every heading entry of every extracted record carries a
non-null pmcid equal to its enclosing article's key. -/
theorem c9_headings_carry_article_key (root : Element) (recs : List ArticleRec)
    (h : parse_pubmed_xml root = .ok recs) :
    ∀ ar ∈ recs, ∀ m ∈ ar.mesh_terms, m.pmcid = ar.pmcid ∧ m.pmcid.isSome := by
  intro ar har m hm
  obtain ⟨a, _, hpa⟩ := parseLoop_mem _ _ h ar har
  obtain ⟨hs, hp, _, _, hmesh⟩ := parseArticle_ok_some a ar hpa
  rw [hmesh] at hm
  simp only [List.mem_flatMap] at hm
  obtain ⟨mesh, _, hmm⟩ := hm
  have hmp := meshRows_pmcid _ mesh m hmm
  exact ⟨by rw [hmp, hp], by rw [hmp]; exact hs⟩

/-- The first heading row of `recGood`. -/
def mTermG1 : MeshTerm :=
  ⟨some "PMC100", some "D", some "U1", 1, some "Q1", some "QU1", 0⟩

/-- Witness for C9 at the sample archive's first heading row. -/
theorem c9_headings_carry_article_key_witness :
    mTermG1.pmcid = recGood.pmcid ∧ mTermG1.pmcid.isSome :=
  c9_headings_carry_article_key (eRoot [artGood]) [recGood] rfl recGood
    (List.mem_cons_self recGood []) mTermG1 (by decide)

/-- **C4.** A heading with no descriptor child contributes zero rows;
with a present descriptor, exactly one row per qualifier child, each
row repeating the descriptor's text, code and major flag and carrying
the corresponding qualifier's own fields; zero qualifiers give zero
rows. -/
theorem c4_heading_rows (pmcid : Option String) (mesh : Element) :
    (findChild mesh "DescriptorName" = none → meshRows pmcid mesh = []) ∧
    (∀ d, findChild mesh "DescriptorName" = some d →
      (meshRows pmcid mesh).length = (childrenTag mesh "QualifierName").length ∧
      (childrenTag mesh "QualifierName" = [] → meshRows pmcid mesh = []) ∧
      (∀ m ∈ meshRows pmcid mesh,
        m.descriptor = d.text ∧ m.ui = d.getAttr "UI" ∧
        m.major = (if d.getAttr "MajorTopicYN" = some "Y" then 1 else 0)) ∧
      (∀ i, ∀ hq : i < (childrenTag mesh "QualifierName").length,
        ∀ hm : i < (meshRows pmcid mesh).length,
        (meshRows pmcid mesh)[i].qualifier = (childrenTag mesh "QualifierName")[i].text ∧
        (meshRows pmcid mesh)[i].qual_ui = (childrenTag mesh "QualifierName")[i].getAttr "UI" ∧
        (meshRows pmcid mesh)[i].qual_major =
          (if (childrenTag mesh "QualifierName")[i].getAttr "MajorTopicYN" = some "Y"
           then 1 else 0))) := by
  constructor
  · intro h
    unfold meshRows
    rw [h]
  · intro d hd
    have hrows : meshRows pmcid mesh =
        (childrenTag mesh "QualifierName").map (fun q =>
          { pmcid := pmcid
            descriptor := d.text
            ui := d.getAttr "UI"
            major := if d.getAttr "MajorTopicYN" = some "Y" then 1 else 0
            qualifier := q.text
            qual_ui := q.getAttr "UI"
            qual_major := if q.getAttr "MajorTopicYN" = some "Y" then 1 else 0 }) := by
      unfold meshRows
      rw [hd]
    refine ⟨by rw [hrows, List.length_map], ?_, ?_, ?_⟩
    · intro hq
      rw [hrows, hq]
      rfl
    · intro m hm
      rw [hrows] at hm
      simp only [List.mem_map] at hm
      obtain ⟨q, _, rfl⟩ := hm
      exact ⟨rfl, rfl, rfl⟩
    · intro i hq hm
      simp [hrows, List.getElem_map]

/-- A heading with a descriptor and two qualifiers, and one with a
qualifier but no descriptor. -/
def meshSample : Element :=
  eMesh [eDescr "D" "U1" "Y", eQual "Q1" "QU1" "N", eQual "Q2" "QU2" "Y"]

def meshNoDescr : Element := eMesh [eQual "Q3" "QU3" "N"]

/-- Witness for C4: two qualifiers give two rows; a descriptor-less
heading gives none. -/
theorem c4_heading_rows_witness :
    (meshRows (some "PMC100") meshSample).length =
      (childrenTag meshSample "QualifierName").length ∧
    meshRows (some "PMC100") meshNoDescr = [] :=
  ⟨((c4_heading_rows (some "PMC100") meshSample).2 (eDescr "D" "U1" "Y") rfl).1,
   (c4_heading_rows (some "PMC100") meshNoDescr).1 rfl⟩

/-- An article carrying two alternate ids of the `pmc` type. -/
def artTwoPmc : Element :=
  eArticle [ePMID "1", eAid "pmc" (some "PMC1"), eAid "pmc" (some "PMC2")]

/-- The record the extractor produces for `artTwoPmc`. -/
def recTwoPmc : ArticleRec :=
  ⟨some "PMC2", some "1", none, none, none, []⟩

/-- **C5, counterexample.** The claim predicts first-match-wins: with
pmc ids "PMC1" then "PMC2" the kept key should be "PMC1".  The scan at
lines 72-76 overwrites the bucket on every match, so the kept key is
"PMC2", the LAST matching node's value. -/
theorem c5_first_match_fails :
    parseArticle artTwoPmc = .ok (some recTwoPmc) ∧
    recTwoPmc.pmcid = some "PMC2" ∧ "PMC2" ≠ "PMC1" := by
  exact ⟨rfl, rfl, by decide⟩

/-- The value the scan keeps for one id type: the text of the last
node of that type, or the default when none occurs. -/
def lastOfType (ty : String) (ids : List Element) (dflt : Option String) : Option String :=
  ids.foldl (fun acc e => if e.getAttr "IdType" = some ty then e.text else acc) dflt

theorem lastOfType_cons (ty : String) (a : Element) (rest : List Element)
    (dflt : Option String) :
    lastOfType ty (a :: rest) dflt =
      lastOfType ty rest (if a.getAttr "IdType" = some ty then a.text else dflt) := rfl

/-- **C5, amended.** The scan keeps the LAST matching node's value per
bucket: each later node of the same recognized type overwrites the
earlier value. -/
theorem c5_last_match_wins (ids : List Element) (d0 p0 : Option String) :
    scanIds ids d0 p0 = (lastOfType "doi" ids d0, lastOfType "pmc" ids p0) := by
  induction ids generalizing d0 p0 with
  | nil => rfl
  | cons a rest ih =>
    rw [scanIds, lastOfType_cons, lastOfType_cons]
    by_cases hd : a.getAttr "IdType" = some "doi"
    · have hp : ¬a.getAttr "IdType" = some "pmc" := by
        rw [hd]
        intro hc
        injection hc with hc
        exact absurd hc (by decide)
      rw [if_pos hd, if_pos hd, if_neg hp, ih]
    · by_cases hp : a.getAttr "IdType" = some "pmc"
      · rw [if_neg hd, if_pos hp, if_pos hp, if_neg hd, ih]
      · rw [if_neg hd, if_neg hp, if_neg hp, if_neg hd, ih]

/-- **C7.** When the article has a `PMID` node the extractor throws no
error, and a produced record's title and journal are null whenever the
corresponding node is absent — never an empty-string substitute. -/
theorem c7_optional_title_journal (article : Element) (p : Element)
    (hp : findDesc article "PMID" = some p) :
    (∃ res, parseArticle article = .ok res) ∧
    (∀ ar, parseArticle article = .ok (some ar) →
      (findDesc article "ArticleTitle" = none → ar.title = none) ∧
      (findJournalTitle article = none → ar.journal = none)) := by
  constructor
  · rw [parseArticle, hp]
    simp only
    split
    · exact ⟨_, rfl⟩
    · exact ⟨_, rfl⟩
  · intro ar har
    obtain ⟨_, _, ht, hj, _⟩ := parseArticle_ok_some article ar har
    exact ⟨fun h => by rw [ht, h]; rfl, fun h => by rw [hj, h]; rfl⟩

/-- An article with a key but neither title nor journal node. -/
def artNoTitle : Element := eArticle [ePMID "7", eAid "pmc" (some "PMC7")]

/-- Witness for C7 at an article lacking title and journal nodes. -/
theorem c7_optional_title_journal_witness :
    (∃ res, parseArticle artNoTitle = .ok res) ∧
    (∀ ar, parseArticle artNoTitle = .ok (some ar) →
      (findDesc artNoTitle "ArticleTitle" = none → ar.title = none) ∧
      (findJournalTitle artNoTitle = none → ar.journal = none)) :=
  c7_optional_title_journal artNoTitle (ePMID "7") rfl

/-- If every pmc-typed id node has empty text, the scan's pmc bucket
stays null. -/
theorem scanIds_pmc_all_none : ∀ (ids : List Element) (d0 : Option String),
    (∀ aid ∈ ids, aid.getAttr "IdType" = some "pmc" → aid.text = none) →
    (scanIds ids d0 none).2 = none := by
  intro ids
  induction ids with
  | nil => intro d0 h; rfl
  | cons a rest ih =>
    intro d0 h
    rw [scanIds]
    by_cases hd : a.getAttr "IdType" = some "doi"
    · rw [if_pos hd]
      exact ih _ (fun x hx => h x (List.mem_cons_of_mem a hx))
    · by_cases hp : a.getAttr "IdType" = some "pmc"
      · rw [if_neg hd, if_pos hp, h a (List.mem_cons_self a rest) hp]
        exact ih _ (fun x hx => h x (List.mem_cons_of_mem a hx))
      · rw [if_neg hd, if_neg hp]
        exact ih _ (fun x hx => h x (List.mem_cons_of_mem a hx))

/-- **C10.** An article whose pmc-typed id nodes all lack text content
is excluded from the output exactly as when no key node exists: the
scan leaves the key null and the record is filtered, never kept with an
empty-string key. -/
theorem c10_empty_key_node_excludes (article : Element) (p : Element)
    (hp : findDesc article "PMID" = some p)
    (hempty : ∀ aid ∈ findallDesc article "ArticleId",
      aid.getAttr "IdType" = some "pmc" → aid.text = none) :
    parseArticle article = .ok none := by
  have hk := scanIds_pmc_all_none (findallDesc article "ArticleId") none hempty
  rw [parseArticle, hp]
  simp only
  split
  · rename_i hsome
    rw [hk] at hsome
    simp at hsome
  · rfl

/-- An article whose only pmc id node is an empty element. -/
def artEmptyPmc : Element := eArticle [ePMID "9", eAid "pmc" none]

/-- Witness for C10: the empty-keyed article is excluded. -/
theorem c10_empty_key_node_excludes_witness :
    parseArticle artEmptyPmc = .ok none :=
  c10_empty_key_node_excludes artEmptyPmc (ePMID "9") rfl (by decide)

/-! ### Writer algebra, for the idempotence claim -/

theorem mesh_insertOne (db : DB) (a : ArticleRec) :
    (insertOne db a).mesh_terms = db.mesh_terms ++ a.mesh_terms := by
  unfold insertOne
  split <;> rfl

theorem articles_insertOne (db : DB) (a : ArticleRec) :
    (insertOne db a).articles =
      if a.pmcid.isSome && hasKey db a.pmcid then db.articles
      else db.articles ++ [articleRow a] := by
  unfold insertOne
  split <;> rfl

theorem hasKey_insertOne_mono (db : DB) (a : ArticleRec) (k : Option String)
    (h : hasKey db k = true) :
    hasKey (insertOne db a) k = true := by
  unfold hasKey at h ⊢
  rw [articles_insertOne]
  split
  · exact h
  · rw [List.any_append, h, Bool.true_or]

theorem hasKey_insertOne_self (db : DB) (a : ArticleRec) :
    hasKey (insertOne db a) a.pmcid = true := by
  unfold hasKey
  rw [articles_insertOne]
  split
  · rename_i hc
    rw [Bool.and_eq_true] at hc
    exact hc.2
  · rw [List.any_append]
    simp [articleRow]

/-- `mesh_terms` rows are appended unconditionally: every batch write
adds all of its heading rows, duplicates included. -/
theorem mesh_insert_articles : ∀ (batch : List ArticleRec) (db : DB),
    (insert_articles db batch).mesh_terms =
      db.mesh_terms ++ batch.flatMap (fun a => a.mesh_terms) := by
  intro batch
  induction batch with
  | nil => intro db; simp [insert_articles]
  | cons a rest ih =>
    intro db
    show (insert_articles (insertOne db a) rest).mesh_terms = _
    rw [ih, mesh_insertOne, List.flatMap_cons, List.append_assoc]

theorem hasKey_insert_articles_mono : ∀ (batch : List ArticleRec) (db : DB) (k : Option String),
    hasKey db k = true → hasKey (insert_articles db batch) k = true := by
  intro batch
  induction batch with
  | nil => intro db k h; exact h
  | cons a rest ih =>
    intro db k h
    show hasKey (insert_articles (insertOne db a) rest) k = true
    exact ih _ k (hasKey_insertOne_mono db a k h)

theorem hasKey_insert_articles_mem : ∀ (batch : List ArticleRec) (db : DB) (a : ArticleRec),
    a ∈ batch → a.pmcid.isSome = true →
    hasKey (insert_articles db batch) a.pmcid = true := by
  intro batch
  induction batch with
  | nil => intro db a ha _; cases ha
  | cons b rest ih =>
    intro db a ha hs
    show hasKey (insert_articles (insertOne db b) rest) a.pmcid = true
    cases ha with
    | head => exact hasKey_insert_articles_mono rest _ _ (hasKey_insertOne_self db _)
    | tail _ ha' => exact ih _ a ha' hs

theorem hasKey_articles_eq (db1 db2 : DB) (k : Option String)
    (h : db1.articles = db2.articles) : hasKey db1 k = hasKey db2 k := by
  unfold hasKey
  rw [h]

/-- A batch whose keys are all already present leaves the `articles`
table untouched. -/
theorem articles_insert_articles_of_present : ∀ (batch : List ArticleRec) (db : DB),
    (∀ a ∈ batch, a.pmcid.isSome = true ∧ hasKey db a.pmcid = true) →
    (insert_articles db batch).articles = db.articles := by
  intro batch
  induction batch with
  | nil => intro db _; rfl
  | cons a rest ih =>
    intro db h
    obtain ⟨hs, hk⟩ := h a (List.mem_cons_self a rest)
    have h1 : (insertOne db a).articles = db.articles := by
      rw [articles_insertOne, if_pos]
      rw [hs, hk]
      rfl
    show (insert_articles (insertOne db a) rest).articles = db.articles
    rw [ih (insertOne db a) ?_, h1]
    intro x hx
    obtain ⟨hxs, hxk⟩ := h x (List.mem_cons_of_mem a hx)
    exact ⟨hxs, hasKey_insertOne_mono db a x.pmcid hxk⟩

theorem mesh_writeBatches : ∀ (bs : List (List ArticleRec)) (db : DB),
    (writeBatches db bs).mesh_terms =
      db.mesh_terms ++ bs.flatMap (fun b => b.flatMap (fun a => a.mesh_terms)) := by
  intro bs
  induction bs with
  | nil => intro db; simp [writeBatches]
  | cons b rest ih =>
    intro db
    show (writeBatches (insert_articles db b) rest).mesh_terms = _
    rw [ih, mesh_insert_articles, List.flatMap_cons, List.append_assoc]

theorem hasKey_writeBatches_mono : ∀ (bs : List (List ArticleRec)) (db : DB) (k : Option String),
    hasKey db k = true → hasKey (writeBatches db bs) k = true := by
  intro bs
  induction bs with
  | nil => intro db k h; exact h
  | cons b rest ih =>
    intro db k h
    show hasKey (writeBatches (insert_articles db b) rest) k = true
    exact ih _ k (hasKey_insert_articles_mono b db k h)

theorem hasKey_writeBatches_mem : ∀ (bs : List (List ArticleRec)) (db : DB)
    (b : List ArticleRec) (a : ArticleRec),
    b ∈ bs → a ∈ b → a.pmcid.isSome = true →
    hasKey (writeBatches db bs) a.pmcid = true := by
  intro bs
  induction bs with
  | nil => intro db b a hb _ _; cases hb
  | cons b0 rest ih =>
    intro db b a hb ha hs
    show hasKey (writeBatches (insert_articles db b0) rest) a.pmcid = true
    cases hb with
    | head => exact hasKey_writeBatches_mono rest _ _ (hasKey_insert_articles_mem b0 db a ha hs)
    | tail _ hb' => exact ih _ b a hb' ha hs

theorem articles_writeBatches_of_present : ∀ (bs : List (List ArticleRec)) (db : DB),
    (∀ b ∈ bs, ∀ a ∈ b, a.pmcid.isSome = true ∧ hasKey db a.pmcid = true) →
    (writeBatches db bs).articles = db.articles := by
  intro bs
  induction bs with
  | nil => intro db _; rfl
  | cons b rest ih =>
    intro db h
    have h1 : (insert_articles db b).articles = db.articles :=
      articles_insert_articles_of_present b db (h b (List.mem_cons_self b rest))
    show (writeBatches (insert_articles db b) rest).articles = db.articles
    rw [ih (insert_articles db b) ?_, h1]
    intro b' hb' x hx
    obtain ⟨hxs, hxk⟩ := h b' (List.mem_cons_of_mem b hb') x hx
    refine ⟨hxs, ?_⟩
    rw [hasKey_articles_eq _ db _ h1]
    exact hxk

/-- `articles` holds at most one row per distinct (non-null) key. -/
def atMostOnePerKey (db : DB) : Prop :=
  ∀ k : String, db.articles.countP (fun r => r.pmcid = some k) ≤ 1

theorem atMostOnePerKey_insertOne (db : DB) (a : ArticleRec)
    (h : atMostOnePerKey db) : atMostOnePerKey (insertOne db a) := by
  intro k
  have hdb := h k
  rw [articles_insertOne]
  split
  · exact hdb
  · rename_i hc
    rw [List.countP_append]
    by_cases hr : (articleRow a).pmcid = some k
    · have h0 : (db.articles.countP fun r => decide (r.pmcid = some k)) = 0 := by
        rw [List.countP_eq_zero]
        intro r hrr
        simp only [decide_eq_true_eq]
        intro heq
        apply hc
        have hak : a.pmcid = some k := hr
        rw [hak]
        refine Bool.and_eq_true_iff.mpr ⟨rfl, ?_⟩
        unfold hasKey
        rw [List.any_eq_true]
        exact ⟨r, hrr, by simp [heq]⟩
      rw [h0]
      simp [hr]
    · have h1 : (List.countP (fun r => decide (r.pmcid = some k)) [articleRow a]) = 0 := by
        simp [hr]
      rw [h1]
      simpa using hdb

theorem atMostOnePerKey_insert_articles : ∀ (batch : List ArticleRec) (db : DB),
    atMostOnePerKey db → atMostOnePerKey (insert_articles db batch) := by
  intro batch
  induction batch with
  | nil => intro db h; exact h
  | cons a rest ih =>
    intro db h
    show atMostOnePerKey (insert_articles (insertOne db a) rest)
    exact ih _ (atMostOnePerKey_insertOne db a h)

theorem atMostOnePerKey_writeBatches : ∀ (bs : List (List ArticleRec)) (db : DB),
    atMostOnePerKey db → atMostOnePerKey (writeBatches db bs) := by
  intro bs
  induction bs with
  | nil => intro db h; exact h
  | cons b rest ih =>
    intro db h
    show atMostOnePerKey (writeBatches (insert_articles db b) rest)
    exact ih _ (atMostOnePerKey_insert_articles b db h)

/-- **C6.** Writing the same batches a second time changes nothing in
the `articles` table; the second run's heading inserts are NOT
suppressed, so `mesh_terms` grows by the full heading content of the
batches again; and the at-most-one-row-per-key invariant is preserved
across any sequence of writer invocations. -/
theorem c6_second_run_is_articles_noop (db : DB) (bs : List (List ArticleRec))
    (hkeys : ∀ b ∈ bs, ∀ a ∈ b, a.pmcid.isSome = true) :
    (writeBatches (writeBatches db bs) bs).articles = (writeBatches db bs).articles ∧
    (writeBatches (writeBatches db bs) bs).mesh_terms =
      (writeBatches db bs).mesh_terms ++
        bs.flatMap (fun b => b.flatMap (fun a => a.mesh_terms)) ∧
    (atMostOnePerKey db → atMostOnePerKey (writeBatches (writeBatches db bs) bs)) := by
  refine ⟨?_, mesh_writeBatches bs _, ?_⟩
  · apply articles_writeBatches_of_present
    intro b hb a ha
    exact ⟨hkeys b hb a ha,
      hasKey_writeBatches_mem bs db b a hb ha (hkeys b hb a ha)⟩
  · intro h0
    exact atMostOnePerKey_writeBatches bs _ (atMostOnePerKey_writeBatches bs db h0)

/-- Witness for C6 at a one-batch run into the empty store. -/
theorem c6_second_run_is_articles_noop_witness :
    (writeBatches (writeBatches dbEmpty [[recDupA]]) [[recDupA]]).articles =
      (writeBatches dbEmpty [[recDupA]]).articles ∧
    (writeBatches (writeBatches dbEmpty [[recDupA]]) [[recDupA]]).mesh_terms =
      (writeBatches dbEmpty [[recDupA]]).mesh_terms ++
        [[recDupA]].flatMap (fun b => b.flatMap (fun a => a.mesh_terms)) ∧
    (atMostOnePerKey dbEmpty →
      atMostOnePerKey (writeBatches (writeBatches dbEmpty [[recDupA]]) [[recDupA]])) :=
  c6_second_run_is_articles_noop dbEmpty [[recDupA]] (by decide)

/-! ### Coordinator invariant, for the concurrency claim -/


/-- Setting one slot changes the active count by the activity
difference of old and new state. -/
theorem activeCount_set : ∀ (l : List FState) (i : Nat) (hi : i < l.length) (v : FState),
    activeCount (l.set i v) + (if l[i].isActive then 1 else 0) =
      activeCount l + (if v.isActive then 1 else 0) := by
  intro l
  induction l with
  | nil => intro i hi; exact absurd hi (Nat.not_lt_zero i)
  | cons a t ih =>
    intro i hi v
    cases i with
    | zero =>
      show activeCount (v :: t) + _ = _
      unfold activeCount
      rw [List.countP_cons, List.countP_cons]
      simp only [List.getElem_cons_zero]
      omega
    | succ n =>
      have hn : n < t.length := Nat.lt_of_succ_lt_succ hi
      unfold activeCount
      rw [List.set_cons_succ, List.countP_cons, List.countP_cons]
      simp only [List.getElem_cons_succ]
      have hrec := ih n hn v
      unfold activeCount at hrec
      omega

/-- Coordinator invariant: the pool bound holds and any task in the
write phase is the lock holder. -/
def coordInv (N : Nat) (c : Coord) : Prop :=
  activeCount c.tasks ≤ N ∧
  ∀ i : Nat, ∀ hi : i < c.tasks.length,
    c.tasks.get ⟨i, hi⟩ = .writing → c.lockHolder = some i

theorem coordInv_init (N n : Nat) : coordInv N (initCoord n) := by
  constructor
  · unfold activeCount initCoord
    have : (List.replicate n FState.pending).countP (fun s => s.isActive) = 0 := by
      rw [List.countP_eq_zero]
      intro s hs
      rw [List.eq_of_mem_replicate hs]
      decide
    rw [this]
    exact Nat.zero_le N
  · intro i hi h
    rw [List.get_eq_getElem] at h
    simp only [initCoord, List.getElem_replicate] at h
    cases h

/-- Every scheduler step preserves the invariant. -/
theorem coordInv_step (N : Nat) (c c' : Coord) (hstep : CoordStep N c c')
    (hinv : coordInv N c) : coordInv N c' := by
  obtain ⟨hcount, hlock⟩ := hinv
  cases hstep with
  | dispatch i hi hp hb =>
    rw [List.get_eq_getElem] at hp
    constructor
    · have hset := activeCount_set c.tasks i hi FState.extracting
      rw [hp] at hset
      rw [show (if FState.pending.isActive = true then (1:Nat) else 0) = 0 from rfl,
          show (if FState.extracting.isActive = true then (1:Nat) else 0) = 1 from rfl] at hset
      simp only
      omega
    · intro j hj hw
      rw [List.get_eq_getElem] at hw
      simp only [List.length_set] at hj
      rw [List.getElem_set] at hw
      split at hw
      · cases hw
      · exact hlock j hj (by rw [List.get_eq_getElem]; exact hw)
  | acquireWrite i hi he hl =>
    rw [List.get_eq_getElem] at he
    constructor
    · have hset := activeCount_set c.tasks i hi FState.writing
      rw [he] at hset
      rw [show (if FState.extracting.isActive = true then (1:Nat) else 0) = 1 from rfl,
          show (if FState.writing.isActive = true then (1:Nat) else 0) = 1 from rfl] at hset
      simp only
      omega
    · intro j hj hw
      rw [List.get_eq_getElem] at hw
      simp only [List.length_set] at hj
      rw [List.getElem_set] at hw
      split at hw
      · rename_i hij
        simp only
        rw [hij]
      · rename_i hij
        have := hlock j hj (by rw [List.get_eq_getElem]; exact hw)
        rw [hl] at this
        cases this
  | releaseWrite i hi hw0 hl =>
    rw [List.get_eq_getElem] at hw0
    constructor
    · have hset := activeCount_set c.tasks i hi FState.done
      rw [hw0] at hset
      rw [show (if FState.writing.isActive = true then (1:Nat) else 0) = 1 from rfl,
          show (if FState.done.isActive = true then (1:Nat) else 0) = 0 from rfl] at hset
      simp only
      omega
    · intro j hj hw
      rw [List.get_eq_getElem] at hw
      simp only [List.length_set] at hj
      rw [List.getElem_set] at hw
      split at hw
      · cases hw
      · rename_i hij
        have := hlock j hj (by rw [List.get_eq_getElem]; exact hw)
        rw [hl] at this
        injection this with hji
        exact absurd hji hij
  | failExtract i hi he =>
    rw [List.get_eq_getElem] at he
    constructor
    · have hset := activeCount_set c.tasks i hi FState.failed
      rw [he] at hset
      rw [show (if FState.extracting.isActive = true then (1:Nat) else 0) = 1 from rfl,
          show (if FState.failed.isActive = true then (1:Nat) else 0) = 0 from rfl] at hset
      simp only
      omega
    · intro j hj hw
      rw [List.get_eq_getElem] at hw
      simp only [List.length_set] at hj
      rw [List.getElem_set] at hw
      split at hw
      · cases hw
      · exact hlock j hj (by rw [List.get_eq_getElem]; exact hw)

theorem coordInv_reachable (N n : Nat) (c : Coord) (h : reachable N n c) :
    coordInv N c := by
  unfold reachable at h
  induction h with
  | refl => exact coordInv_init N n
  | tail hsteps hstep ih => exact coordInv_step N _ _ hstep ih

/-- **C8.** In every reachable coordinator state at most `N` files are
in the extracting or writing state, and no two distinct tasks are in
the store-write phase simultaneously (the single `DB_LOCK` admits one
writer). -/
theorem c8_bound_and_mutex (N n : Nat) (c : Coord) (h : reachable N n c) :
    activeCount c.tasks ≤ N ∧
    (∀ i j : Nat, ∀ hi : i < c.tasks.length, ∀ hj : j < c.tasks.length,
      c.tasks.get ⟨i, hi⟩ = .writing → c.tasks.get ⟨j, hj⟩ = .writing → i = j) := by
  obtain ⟨hcount, hlock⟩ := coordInv_reachable N n c h
  refine ⟨hcount, ?_⟩
  intro i j hi hj hwi hwj
  have h1 := hlock i hi hwi
  have h2 := hlock j hj hwj
  exact Option.some.inj (h1.symm.trans h2)

/-- Witness for C8: the state after dispatching the first of two files
under bound 1 is reachable and satisfies the bound and mutual
exclusion. -/
theorem c8_bound_and_mutex_witness :
    activeCount (Coord.mk ((initCoord 2).tasks.set 0 FState.extracting)
        (initCoord 2).lockHolder).tasks ≤ 1 ∧
    (∀ i j : Nat,
      ∀ hi : i < (Coord.mk ((initCoord 2).tasks.set 0 FState.extracting)
        (initCoord 2).lockHolder).tasks.length,
      ∀ hj : j < (Coord.mk ((initCoord 2).tasks.set 0 FState.extracting)
        (initCoord 2).lockHolder).tasks.length,
      (Coord.mk ((initCoord 2).tasks.set 0 FState.extracting)
        (initCoord 2).lockHolder).tasks.get ⟨i, hi⟩ = FState.writing →
      (Coord.mk ((initCoord 2).tasks.set 0 FState.extracting)
        (initCoord 2).lockHolder).tasks.get ⟨j, hj⟩ = FState.writing → i = j) :=
  c8_bound_and_mutex 1 2 _
    (Relation.ReflTransGen.single
      (CoordStep.dispatch (initCoord 2) 0 (by decide) rfl (by decide)))

end PMC

